import Mathlib

/-!
Verification of the Prospexv2 lead pipeline: the scorer
(`calculateLeadScore` in `src/components/layout/LayoutWrapper.tsx`), the
search handler's de-duplication, location filter, website enrichment and
multi-source orchestration (`src/app/api/scrape/route.ts`), and the
enrichment endpoint (`src/app/api/enrich/route.ts`).

Strings manipulated character-by-character by the code (business names,
crawled page text) are modelled as `List Char`; fields only tested for JS
truthiness are modelled as `Option String`.  JS `null`/`undefined` are both
modelled as `none`.  Numeric JS values feeding only order comparisons
(ratings, audit scores) are modelled as `ℚ`.
-/

namespace Prospex

/-- JS truthiness of an optional string field: `null`, `undefined` and the
empty string are falsy. -/
def truthyS : Option String → Bool
  | none => false
  | some s => s != ""

/-- JS truthiness of an optional numeric field: `null`, `undefined` and `0`
are falsy. -/
def truthyQ : Option ℚ → Bool
  | none => false
  | some q => q != 0

/-- The `LeadInput` interface consumed by `calculateLeadScore`
(`LayoutWrapper.tsx`).  All fields are optional. -/
structure LeadInput where
  email : Option String := none
  phone : Option String := none
  website : Option String := none
  instagram_url : Option String := none
  google_rating : Option ℚ := none
  google_review_count : Option Nat := none
  audit_score : Option ℚ := none
  business_name : Option String := none
deriving Repr, DecidableEq

/-- Letter grade of `LeadScoreResult`. -/
inductive Grade | A | B | C | D | F
deriving Repr, DecidableEq

/-- Priority tier of `LeadScoreResult`. -/
inductive Priority | hot | warm | cold
deriving Repr, DecidableEq

/-- One entry of the `factors` array built by `calculateLeadScore`. -/
structure ScoreFactor where
  name : String
  score : Nat
  maxScore : Nat
  description : String
deriving Repr, DecidableEq

/-- The `LeadScoreResult` interface of `LayoutWrapper.tsx`. -/
structure LeadScoreResult where
  total : Nat
  grade : Grade
  priority : Priority
  factors : List ScoreFactor
  recommendation : String
deriving Repr, DecidableEq

/-- Factor 1 of `calculateLeadScore`: `lead.email ? 25 : 0`. -/
def emailScoreOf (lead : LeadInput) : Nat :=
  if truthyS lead.email then 25 else 0

/-- Factor 2 of `calculateLeadScore`: `lead.phone ? 15 : 0`. -/
def phoneScoreOf (lead : LeadInput) : Nat :=
  if truthyS lead.phone then 15 else 0

/-- Factor 3 of `calculateLeadScore` (website opportunity): branches on a
present `audit_score` (`!== undefined && !== null`), else on the website. -/
def websiteScoreOf (lead : LeadInput) : Nat :=
  match lead.audit_score with
  | some a => if a < 40 then 25 else if a < 60 then 20 else if a < 80 then 12 else 5
  | none => if truthyS lead.website then 12 else 18

/-- Factor 4 of `calculateLeadScore` (review opportunity): branches on a
present `google_review_count` (`!== null && !== undefined`). -/
def reviewScoreOf (lead : LeadInput) : Nat :=
  match lead.google_review_count with
  | some c => if c < 10 then 15 else if c < 30 then 12 else if c < 100 then 8 else 4
  | none => 0

/-- Factor 5 of `calculateLeadScore` (online presence): +3 Instagram,
+4 website, +3 for a truthy rating that is at least 3.0. -/
def socialScoreOf (lead : LeadInput) : Nat :=
  (if truthyS lead.instagram_url then 3 else 0) +
  (if truthyS lead.website then 4 else 0) +
  (if truthyQ lead.google_rating && decide (3 ≤ lead.google_rating.getD 0) then 3 else 0)

/-- Factor 6 of `calculateLeadScore` (data completeness): +2 name, +3 email,
+2 phone, +3 website. -/
def completenessOf (lead : LeadInput) : Nat :=
  (if truthyS lead.business_name then 2 else 0) +
  (if truthyS lead.email then 3 else 0) +
  (if truthyS lead.phone then 2 else 0) +
  (if truthyS lead.website then 3 else 0)

/-- Description string of the review factor, mirroring the template literal
of the source (`${count} reviews — ...` when the count is truthy). -/
def reviewDescription (lead : LeadInput) : String :=
  match lead.google_review_count with
  | some c =>
      if c ≠ 0 then
        toString c ++ " reviews — " ++
          (if c < 30 then "needs review generation" else "established presence")
      else "No review data"
  | none => "No review data"

/-- `calculateLeadScore` from `LayoutWrapper.tsx`: six factor scores summed
into `total`, grade/priority/recommendation derived from `total` by fixed
thresholds, and the ordered factor list. -/
def calculateLeadScore (lead : LeadInput) : LeadScoreResult :=
  let emailScore := emailScoreOf lead
  let phoneScore := phoneScoreOf lead
  let websiteScore := websiteScoreOf lead
  let reviewScore := reviewScoreOf lead
  let socialScore := socialScoreOf lead
  let completeness := completenessOf lead
  let total := emailScore + phoneScore + websiteScore + reviewScore + socialScore + completeness
  { total := total
    grade :=
      if 80 ≤ total then .A
      else if 65 ≤ total then .B
      else if 50 ≤ total then .C
      else if 35 ≤ total then .D
      else .F
    priority :=
      if 70 ≤ total then .hot
      else if 45 ≤ total then .warm
      else .cold
    factors :=
      [ { name := "Email Available", score := emailScore, maxScore := 25,
          description := if truthyS lead.email then "Contact email found" else "No email — harder to reach" },
        { name := "Phone Available", score := phoneScore, maxScore := 15,
          description := if truthyS lead.phone then "Phone number available" else "No phone number" },
        { name := "Website Opportunity", score := websiteScore, maxScore := 25,
          description :=
            match lead.audit_score with
            | some a => if a < 50 then "Poor website — high service opportunity" else "Decent website — moderate opportunity"
            | none => if truthyS lead.website then "Has website but not yet audited" else "No website — huge build opportunity" },
        { name := "Review Opportunity", score := reviewScore, maxScore := 15,
          description := reviewDescription lead },
        { name := "Online Presence", score := socialScore, maxScore := 10,
          description := toString (socialScore * 10) ++ "% presence detected" },
        { name := "Data Completeness", score := completeness, maxScore := 10,
          description := toString (completeness * 10) ++ "% of contact data available" } ]
    recommendation :=
      if 80 ≤ total then "High-priority lead. Reach out immediately with a personalised pitch."
      else if 65 ≤ total then "Strong lead. Send audit report and follow up within 24 hours."
      else if 50 ≤ total then "Decent prospect. Enrich data and run website audit before outreach."
      else if 35 ≤ total then "Needs more data. Find email or run audit to qualify further."
      else "Low priority. Focus on higher-scoring leads first." }

theorem calculateLeadScore_total_eq (lead : LeadInput) :
    (calculateLeadScore lead).total =
      emailScoreOf lead + phoneScoreOf lead + websiteScoreOf lead +
        reviewScoreOf lead + socialScoreOf lead + completenessOf lead := rfl

theorem emailScoreOf_le (lead : LeadInput) : emailScoreOf lead ≤ 25 := by
  unfold emailScoreOf; split <;> omega

theorem phoneScoreOf_le (lead : LeadInput) : phoneScoreOf lead ≤ 15 := by
  unfold phoneScoreOf; split <;> omega

theorem websiteScoreOf_le (lead : LeadInput) : websiteScoreOf lead ≤ 25 := by
  unfold websiteScoreOf
  rcases lead.audit_score with _ | a <;> simp only [] <;> split <;> try split
  all_goals first | omega | (split <;> omega)

theorem reviewScoreOf_le (lead : LeadInput) : reviewScoreOf lead ≤ 15 := by
  unfold reviewScoreOf
  rcases lead.google_review_count with _ | c <;> simp only []
  · omega
  · split <;> try split
    all_goals first | omega | (split <;> omega)

theorem socialScoreOf_le (lead : LeadInput) : socialScoreOf lead ≤ 10 := by
  unfold socialScoreOf; split <;> split <;> split <;> omega

theorem completenessOf_le (lead : LeadInput) : completenessOf lead ≤ 10 := by
  unfold completenessOf; split <;> split <;> split <;> split <;> omega

theorem calculateLeadScore_factor_scores (lead : LeadInput) :
    ((calculateLeadScore lead).factors.map (fun f => f.score)) =
      [emailScoreOf lead, phoneScoreOf lead, websiteScoreOf lead,
        reviewScoreOf lead, socialScoreOf lead, completenessOf lead] := rfl

/-- C9: for every lead input the total produced by `calculateLeadScore` lies
in 0..100; the six factor scores are individually bounded by their maxima
25, 15, 25, 15, 10, 10; and the total is exactly the sum of the factor
scores, so no clamping step is needed. -/
theorem calculateLeadScore_total_bounds (lead : LeadInput) :
    (calculateLeadScore lead).total ≤ 100 ∧
    ((calculateLeadScore lead).factors.map (fun f => f.maxScore)) = [25, 15, 25, 15, 10, 10] ∧
    ((calculateLeadScore lead).factors.all (fun f => f.score ≤ f.maxScore)) = true ∧
    (calculateLeadScore lead).total = ((calculateLeadScore lead).factors.map (fun f => f.score)).sum := by
  have h1 := emailScoreOf_le lead
  have h2 := phoneScoreOf_le lead
  have h3 := websiteScoreOf_le lead
  have h4 := reviewScoreOf_le lead
  have h5 := socialScoreOf_le lead
  have h6 := completenessOf_le lead
  refine ⟨?_, rfl, ?_, ?_⟩
  · rw [calculateLeadScore_total_eq]; omega
  · simp only [calculateLeadScore, List.all_cons, List.all_nil, Bool.and_eq_true,
      decide_eq_true_eq, and_true]
    exact ⟨h1, h2, h3, h4, h5, h6⟩
  · rw [calculateLeadScore_total_eq, calculateLeadScore_factor_scores]
    simp only [List.sum_cons, List.sum_nil]
    omega

/-- C2: the grade and priority returned by `calculateLeadScore` are derived
from the total exactly by the fixed thresholds (A iff total ≥ 80, B iff
65 ≤ total < 80, C iff 50 ≤ total < 65, D iff 35 ≤ total < 50, else F;
hot iff total ≥ 70, warm iff 45 ≤ total < 70, else cold), which in
particular fixes the grade and priority at every boundary total, including
34, 35, 49, 50, 64, 65, 69, 70, 79 and 80. -/
theorem calculateLeadScore_grade_priority_thresholds (lead : LeadInput) :
    ((calculateLeadScore lead).grade = .A ↔ 80 ≤ (calculateLeadScore lead).total) ∧
    ((calculateLeadScore lead).grade = .B ↔
      65 ≤ (calculateLeadScore lead).total ∧ (calculateLeadScore lead).total < 80) ∧
    ((calculateLeadScore lead).grade = .C ↔
      50 ≤ (calculateLeadScore lead).total ∧ (calculateLeadScore lead).total < 65) ∧
    ((calculateLeadScore lead).grade = .D ↔
      35 ≤ (calculateLeadScore lead).total ∧ (calculateLeadScore lead).total < 50) ∧
    ((calculateLeadScore lead).grade = .F ↔ (calculateLeadScore lead).total < 35) ∧
    ((calculateLeadScore lead).priority = .hot ↔ 70 ≤ (calculateLeadScore lead).total) ∧
    ((calculateLeadScore lead).priority = .warm ↔
      45 ≤ (calculateLeadScore lead).total ∧ (calculateLeadScore lead).total < 70) ∧
    ((calculateLeadScore lead).priority = .cold ↔ (calculateLeadScore lead).total < 45) := by
  have hg : (calculateLeadScore lead).grade =
      (if 80 ≤ (calculateLeadScore lead).total then Grade.A
       else if 65 ≤ (calculateLeadScore lead).total then .B
       else if 50 ≤ (calculateLeadScore lead).total then .C
       else if 35 ≤ (calculateLeadScore lead).total then .D
       else .F) := rfl
  have hp : (calculateLeadScore lead).priority =
      (if 70 ≤ (calculateLeadScore lead).total then Priority.hot
       else if 45 ≤ (calculateLeadScore lead).total then .warm
       else .cold) := rfl
  rw [hg, hp]
  generalize (calculateLeadScore lead).total = t
  split_ifs <;> simp <;> omega

/-- C1 (amended): adding a non-empty email to an otherwise-identical lead
whose email was absent increases the total of `calculateLeadScore` by
exactly 28 (25 for the email factor plus 3 data-completeness points), and
adding a non-empty phone increases it by exactly 17 (15 plus 2). -/
theorem calculateLeadScore_email_phone_delta (lead : LeadInput) (e p : String) :
    (lead.email = none → e ≠ "" →
      (calculateLeadScore { lead with email := some e }).total =
        (calculateLeadScore lead).total + 28) ∧
    (lead.phone = none → p ≠ "" →
      (calculateLeadScore { lead with phone := some p }).total =
        (calculateLeadScore lead).total + 17) := by
  constructor
  · intro h he
    rw [calculateLeadScore_total_eq, calculateLeadScore_total_eq]
    have h1 : websiteScoreOf { lead with email := some e } = websiteScoreOf lead := rfl
    have h2 : reviewScoreOf { lead with email := some e } = reviewScoreOf lead := rfl
    have h3 : socialScoreOf { lead with email := some e } = socialScoreOf lead := rfl
    have h4 : phoneScoreOf { lead with email := some e } = phoneScoreOf lead := rfl
    have he' : (e != "") = true := by simpa using he
    have h5 : emailScoreOf { lead with email := some e } = 25 := by
      simp [emailScoreOf, truthyS, he']
    have h6 : emailScoreOf lead = 0 := by simp [emailScoreOf, h, truthyS]
    have h7 : completenessOf { lead with email := some e } = completenessOf lead + 3 := by
      simp [completenessOf, h, truthyS, he']
      omega
    rw [h1, h2, h3, h4, h5, h6, h7]
    omega
  · intro h hp
    rw [calculateLeadScore_total_eq, calculateLeadScore_total_eq]
    have h1 : websiteScoreOf { lead with phone := some p } = websiteScoreOf lead := rfl
    have h2 : reviewScoreOf { lead with phone := some p } = reviewScoreOf lead := rfl
    have h3 : socialScoreOf { lead with phone := some p } = socialScoreOf lead := rfl
    have h4 : emailScoreOf { lead with phone := some p } = emailScoreOf lead := rfl
    have hp' : (p != "") = true := by simpa using hp
    have h5 : phoneScoreOf { lead with phone := some p } = 15 := by
      simp [phoneScoreOf, truthyS, hp']
    have h6 : phoneScoreOf lead = 0 := by simp [phoneScoreOf, h, truthyS]
    have h7 : completenessOf { lead with phone := some p } = completenessOf lead + 2 := by
      simp [completenessOf, h, truthyS, hp']
      omega
    rw [h1, h2, h3, h4, h5, h6, h7]
    omega

/-- The all-absent lead used as a concrete base point. -/
def cxLead0 : LeadInput := {}

/-- C1 counterexample: on the code, adding the email `a@b.co` to the
all-absent lead moves the total from 18 to 46, an increase of 28, so the
claimed increase of exactly 25 is false. -/
theorem calculateLeadScore_email_delta_counterexample :
    (calculateLeadScore { cxLead0 with email := some "a@b.co" }).total = 46 ∧
    (calculateLeadScore cxLead0).total = 18 ∧ (46 : Nat) ≠ 18 + 25 := by
  refine ⟨rfl, rfl, by omega⟩

/-- Witness instantiating `calculateLeadScore_email_phone_delta` at concrete
inputs. -/
theorem calculateLeadScore_email_phone_delta_witness :
    (calculateLeadScore { cxLead0 with email := some "a@b.co" }).total =
      (calculateLeadScore cxLead0).total + 28 ∧
    (calculateLeadScore { cxLead0 with phone := some "0203 123 4567" }).total =
      (calculateLeadScore cxLead0).total + 17 :=
  ⟨(calculateLeadScore_email_phone_delta cxLead0 "a@b.co" "0203 123 4567").1 rfl (by decide),
   (calculateLeadScore_email_phone_delta cxLead0 "a@b.co" "0203 123 4567").2 rfl (by decide)⟩

/-! JS string helpers on `List Char`.  The source only ever lower-cases and
trims ASCII scraped text, which `Char.toLower` / `Char.isWhitespace`
model. -/

/-- `String.prototype.toLowerCase`. -/
def jsToLower (s : List Char) : List Char := s.map Char.toLower

/-- `String.prototype.trim`: strip whitespace from both ends. -/
def jsTrim (s : List Char) : List Char :=
  ((s.dropWhile Char.isWhitespace).reverse.dropWhile Char.isWhitespace).reverse

/-- The `LeadResult` record produced by the source adapters of the search
handler (`src/app/api/scrape/route.ts`). -/
structure LeadResult where
  business_name : List Char
  address : Option (List Char) := none
  city : Option (List Char) := none
  country : Option (List Char) := none
  phone : Option (List Char) := none
  email : Option (List Char) := none
  website : Option (List Char) := none
  instagram_url : Option (List Char) := none
  google_rating : Option ℚ := none
  google_review_count : Option Nat := none
  google_maps_url : Option (List Char) := none
  source : List Char := []
deriving Repr, DecidableEq

/-- Normalized dedup key: `r.business_name.toLowerCase().trim()`. -/
def normName (s : List Char) : List Char := jsTrim (jsToLower s)

/-- The de-duplication pass of the search handler: a running `seen` set of
normalized names; a candidate is dropped when its raw name is empty, its
normalized name is empty or shorter than 2 characters, or the normalized
name was seen before; otherwise it is kept and its key recorded.  JS
`Set.has`/`Set.add` are modelled by list membership / consing. -/
def dedupeAux (seen : List (List Char)) : List LeadResult → List LeadResult
  | [] => []
  | r :: rest =>
      if r.business_name = [] then dedupeAux seen rest
      else if normName r.business_name = [] ∨ (normName r.business_name).length < 2 ∨
          normName r.business_name ∈ seen then dedupeAux seen rest
      else r :: dedupeAux (normName r.business_name :: seen) rest

/-- `results.filter(...)` de-duplication of the search handler, started with
an empty `seen` set. -/
def dedupe (results : List LeadResult) : List LeadResult := dedupeAux [] results

/-- Stated from the amended claim wording: a candidate survives iff its
normalized (lower-cased, trimmed) name has at least two characters and no
earlier candidate in the list has the same normalized name; the first
candidate with a given normalized name is the survivor. -/
def specDedupeAux (prev : List (List Char)) : List LeadResult → List LeadResult
  | [] => []
  | r :: rest =>
      if 2 ≤ (normName r.business_name).length ∧ normName r.business_name ∉ prev then
        r :: specDedupeAux (normName r.business_name :: prev) rest
      else specDedupeAux (normName r.business_name :: prev) rest

/-- Claim-side de-duplication: keep a candidate exactly when its normalized
name is at least 2 characters long and not carried by any earlier
candidate. -/
def specDedupe (results : List LeadResult) : List LeadResult := specDedupeAux [] results

theorem dedupeAux_sound : ∀ (l : List LeadResult) (seen : List (List Char)),
    (∀ r ∈ dedupeAux seen l,
      2 ≤ (normName r.business_name).length ∧ normName r.business_name ∉ seen) ∧
    ((dedupeAux seen l).map (fun r => normName r.business_name)).Nodup := by
  intro l
  induction l with
  | nil => intro seen; simp [dedupeAux]
  | cons r rest ih =>
    intro seen
    simp only [dedupeAux]
    split_ifs with h1 h2
    · exact ih seen
    · exact ih seen
    · push_neg at h2
      obtain ⟨h2a, h2b, h2c⟩ := h2
      constructor
      · intro x hx
        rcases List.mem_cons.mp hx with rfl | hx'
        · exact ⟨by omega, h2c⟩
        · have hmem := (ih (normName r.business_name :: seen)).1 x hx'
          exact ⟨hmem.1, fun hin => hmem.2 (List.mem_cons_of_mem _ hin)⟩
      · simp only [List.map_cons, List.nodup_cons]
        refine ⟨?_, (ih _).2⟩
        intro hmem
        obtain ⟨x, hx, hkey⟩ := List.mem_map.mp hmem
        have := (ih (normName r.business_name :: seen)).1 x hx
        exact this.2 (hkey ▸ List.mem_cons_self _ _)

theorem dedupeAux_fixpoint : ∀ (l : List LeadResult) (seen : List (List Char)),
    (∀ r ∈ l, 2 ≤ (normName r.business_name).length ∧ normName r.business_name ∉ seen) →
    ((l.map (fun r => normName r.business_name)).Nodup) →
    dedupeAux seen l = l := by
  intro l
  induction l with
  | nil => intro seen _ _; rfl
  | cons r rest ih =>
    intro seen hval hnd
    have hr := hval r (List.mem_cons_self _ _)
    have hrne : r.business_name ≠ [] := by
      intro h
      have : normName r.business_name = [] := by rw [h]; rfl
      rw [this] at hr
      simp at hr
    have hkne : normName r.business_name ≠ [] := by
      intro h; rw [h] at hr; simp at hr
    simp only [List.map_cons, List.nodup_cons] at hnd
    simp only [dedupeAux]
    rw [if_neg hrne, if_neg (by push_neg; exact ⟨hkne, by omega, hr.2⟩)]
    congr 1
    apply ih
    · intro x hx
      have hx' := hval x (List.mem_cons_of_mem _ hx)
      refine ⟨hx'.1, ?_⟩
      simp only [List.mem_cons]
      rintro (hk | hk)
      · exact hnd.1 (hk ▸ List.mem_map_of_mem _ hx)
      · exact hx'.2 hk
    · exact hnd.2

theorem dedupeAux_count : ∀ (l : List LeadResult) (seen : List (List Char)) (k : List Char),
    2 ≤ k.length → k ∉ seen → (∃ r ∈ l, normName r.business_name = k) →
    ((dedupeAux seen l).countP (fun r => normName r.business_name == k)) = 1 := by
  intro l
  induction l with
  | nil => intro seen k _ _ hex; simp at hex
  | cons r rest ih =>
    intro seen k hk hns hex
    simp only [dedupeAux]
    split_ifs with h1 h2
    · -- raw name empty: normName is [], cannot be k
      apply ih seen k hk hns
      rcases hex with ⟨x, hx, hxk⟩
      rcases List.mem_cons.mp hx with rfl | hx'
      · exfalso
        have : normName x.business_name = [] := by rw [h1]; rfl
        rw [hxk] at this
        rw [this] at hk; simp at hk
      · exact ⟨x, hx', hxk⟩
    · -- dropped: short key or already seen
      apply ih seen k hk hns
      rcases hex with ⟨x, hx, hxk⟩
      rcases List.mem_cons.mp hx with rfl | hx'
      · exfalso
        rcases h2 with h2 | h2 | h2
        · rw [hxk] at h2; rw [h2] at hk; simp at hk
        · rw [hxk] at h2; omega
        · rw [hxk] at h2; exact hns h2
      · exact ⟨x, hx', hxk⟩
    · -- kept
      push_neg at h2
      by_cases hrk : normName r.business_name = k
      · subst hrk
        have hzero :
            ((dedupeAux (normName r.business_name :: seen) rest).countP
              (fun x => normName x.business_name == normName r.business_name)) = 0 := by
          rw [List.countP_eq_zero]
          intro x hx
          have hs := (dedupeAux_sound rest (normName r.business_name :: seen)).1 x hx
          simp only [beq_iff_eq]
          intro hxk
          exact hs.2 (by rw [hxk]; exact List.mem_cons_self _ _)
        simp [List.countP_cons, hzero]
      · rw [List.countP_cons]
        simp only [beq_iff_eq, if_neg hrk, Nat.add_zero]
        apply ih (normName r.business_name :: seen) k hk
        · simp only [List.mem_cons]
          rintro (h | h)
          · exact hrk h.symm
          · exact hns h
        · rcases hex with ⟨x, hx, hxk⟩
          rcases List.mem_cons.mp hx with rfl | hx'
          · exact absurd hxk hrk
          · exact ⟨x, hx', hxk⟩

/-- C3 (amended): the de-duplication of the search handler is idempotent,
and a list containing two candidates whose business names normalize to the
same key (e.g. differing only in letter case and surrounding whitespace)
yields exactly one surviving entry for that key, provided the normalized
name has at least two characters. -/
theorem dedupe_idempotent_and_case_insensitive :
    (∀ l : List LeadResult, dedupe (dedupe l) = dedupe l) ∧
    (∀ (l : List LeadResult) (r1 r2 : LeadResult), r1 ∈ l → r2 ∈ l →
      normName r1.business_name = normName r2.business_name →
      2 ≤ (normName r1.business_name).length →
      ((dedupe l).countP
        (fun r => normName r.business_name == normName r1.business_name)) = 1) := by
  constructor
  · intro l
    exact dedupeAux_fixpoint (dedupe l) []
      (fun r hr => ⟨((dedupeAux_sound l []).1 r hr).1, List.not_mem_nil _⟩)
      (dedupeAux_sound l []).2
  · intro l r1 r2 h1 h2 _ hlen
    exact dedupeAux_count l [] (normName r1.business_name) hlen (List.not_mem_nil _)
      ⟨r1, h1, rfl⟩

/-- Candidate with the one-letter name `A`. -/
def cxUpperA : LeadResult := { business_name := ['A'] }

/-- Candidate with the one-letter name `a` (plus surrounding whitespace). -/
def cxLowerA : LeadResult := { business_name := [' ', 'a', ' '] }

/-- C3 counterexample: two candidates whose names differ only in letter case
and surrounding whitespace, but whose normalized name has a single
character: the code drops both (key length < 2), so the surviving count for
that name is 0, not 1 as claimed. -/
theorem dedupe_case_pair_counterexample :
    cxUpperA.business_name ≠ cxLowerA.business_name ∧
    normName cxUpperA.business_name = normName cxLowerA.business_name ∧
    ((dedupe [cxUpperA, cxLowerA]).countP
      (fun r => normName r.business_name == normName cxUpperA.business_name)) = 0 := by
  refine ⟨by decide, by decide, by decide⟩

/-- Two-candidate list with case/whitespace variants of the name `glow`. -/
def cxGlow1 : LeadResult := { business_name := ['G', 'l', 'o', 'w'] }

/-- Second case/whitespace variant of the name `glow`. -/
def cxGlow2 : LeadResult := { business_name := [' ', 'g', 'L', 'O', 'W'] }

/-- Witness instantiating `dedupe_idempotent_and_case_insensitive` on a
concrete two-candidate list. -/
theorem dedupe_idempotent_and_case_insensitive_witness :
    dedupe (dedupe [cxGlow1, cxGlow2]) = dedupe [cxGlow1, cxGlow2] ∧
    ((dedupe [cxGlow1, cxGlow2]).countP
      (fun r => normName r.business_name == normName cxGlow1.business_name)) = 1 :=
  ⟨dedupe_idempotent_and_case_insensitive.1 [cxGlow1, cxGlow2],
   dedupe_idempotent_and_case_insensitive.2 [cxGlow1, cxGlow2] cxGlow1 cxGlow2
     (by decide) (by decide) (by decide) (by decide)⟩

theorem dedupeAux_eq_spec : ∀ (l : List LeadResult) (seen prev : List (List Char)),
    (∀ k : List Char, 2 ≤ k.length → (k ∈ seen ↔ k ∈ prev)) →
    dedupeAux seen l = specDedupeAux prev l := by
  intro l
  induction l with
  | nil => intro seen prev _; rfl
  | cons r rest ih =>
    intro seen prev hinv
    simp only [dedupeAux, specDedupeAux]
    by_cases hlen : 2 ≤ (normName r.business_name).length
    · have hne : ¬ r.business_name = [] := by
        intro h
        have hz : normName r.business_name = [] := by rw [h]; rfl
        rw [hz] at hlen; simp at hlen
      have hkne : ¬ normName r.business_name = [] := by
        intro h; rw [h] at hlen; simp at hlen
      rw [if_neg hne]
      by_cases hseen : normName r.business_name ∈ seen
      · have hcode : normName r.business_name = [] ∨ (normName r.business_name).length < 2 ∨
            normName r.business_name ∈ seen := Or.inr (Or.inr hseen)
        have hspec : ¬ (2 ≤ (normName r.business_name).length ∧
            normName r.business_name ∉ prev) :=
          fun hc => hc.2 ((hinv _ hlen).mp hseen)
        rw [if_pos hcode, if_neg hspec]
        apply ih seen (normName r.business_name :: prev)
        intro k hk
        rw [hinv k hk]
        constructor
        · exact fun h => List.mem_cons_of_mem _ h
        · intro h
          rcases List.mem_cons.mp h with rfl | h
          · exact (hinv _ hlen).mp hseen
          · exact h
      · have hcode : ¬ (normName r.business_name = [] ∨
            (normName r.business_name).length < 2 ∨ normName r.business_name ∈ seen) := by
          push_neg; exact ⟨hkne, by omega, hseen⟩
        have hspec : 2 ≤ (normName r.business_name).length ∧
            normName r.business_name ∉ prev :=
          ⟨hlen, fun hp => hseen ((hinv _ hlen).mpr hp)⟩
        rw [if_neg hcode, if_pos hspec]
        congr 1
        apply ih
        intro k hk
        simp only [List.mem_cons]
        rw [hinv k hk]
    · have hkey : (normName r.business_name).length < 2 := by omega
      have hspec : ¬ (2 ≤ (normName r.business_name).length ∧
          normName r.business_name ∉ prev) := fun hc => hlen hc.1
      rw [if_neg hspec]
      have hrec : dedupeAux seen rest = specDedupeAux (normName r.business_name :: prev) rest := by
        apply ih
        intro k hk
        rw [hinv k hk]
        constructor
        · exact fun h => List.mem_cons_of_mem _ h
        · intro h
          rcases List.mem_cons.mp h with rfl | h
          · exfalso; omega
          · exact h
      by_cases hne : r.business_name = []
      · rw [if_pos hne]; exact hrec
      · have hcode : normName r.business_name = [] ∨
            (normName r.business_name).length < 2 ∨ normName r.business_name ∈ seen :=
          Or.inr (Or.inl hkey)
        rw [if_neg hne, if_pos hcode]
        exact hrec

/-- C4 (amended): the de-duplication of the search handler keys each
candidate by its business name lower-cased and trimmed; the first candidate
with a given normalized name in arrival order is the survivor, and a
candidate is dropped if and only if its normalized name has fewer than two
characters (which covers empty and whitespace-only names) or an earlier
candidate in the list has the same normalized name. -/
theorem dedupe_eq_specDedupe (l : List LeadResult) : dedupe l = specDedupe l :=
  dedupeAux_eq_spec l [] [] (fun _ _ => Iff.rfl)

/-- Candidate with the one-letter name `X`. -/
def cxX : LeadResult := { business_name := ['X'] }

/-- C4 counterexample: the candidate named `X` has a non-empty,
non-whitespace name and no earlier duplicate, yet the code drops it (its
normalized name is shorter than 2 characters), so the claimed
drop-condition (empty/whitespace-only name or earlier duplicate) is not
exhaustive. -/
theorem dedupe_drops_short_name_counterexample :
    dedupe [cxX] = [] ∧ cxX.business_name ≠ [] ∧
    cxX.business_name.all Char.isWhitespace = false := by
  refine ⟨rfl, by decide, by decide⟩

/-- `hay.includes(pat)` of JS strings: `pat` occurs as a contiguous
substring of `hay` (the empty pattern always occurs). -/
def jsIncludes : List Char → List Char → Bool
  | [], pat => pat.isPrefixOf []
  | c :: t, pat => pat.isPrefixOf (c :: t) || jsIncludes t pat

theorem jsIncludes_self (s : List Char) : jsIncludes s s = true := by
  have h : s.isPrefixOf s = true := List.isPrefixOf_iff_prefix.mpr (List.prefix_refl _)
  cases s with
  | nil => simp [jsIncludes, h]
  | cons c t => simp [jsIncludes, h]

/-- The inline location-match predicate of the filter in `scrapeGoogleMaps`:
lower-cased address or city contains the lower-cased trimmed location, or
the lower-cased city equals it. -/
def gmLocMatch (location : List Char) (r : LeadResult) : Bool :=
  jsIncludes (jsToLower (r.address.getD [])) (jsTrim (jsToLower location)) ||
  jsIncludes (jsToLower (r.city.getD [])) (jsTrim (jsToLower location)) ||
  (jsToLower (r.city.getD []) == jsTrim (jsToLower location))

/-- The location filter and fallback of `scrapeGoogleMaps`: keep matching
candidates, but when no candidate matches fall back to the unfiltered
mapped list; either way the result is truncated to the first 30. -/
def gmLocationFilter (mapped : List LeadResult) (location : List Char) : List LeadResult :=
  if 0 < (mapped.filter (gmLocMatch location)).length
  then (mapped.filter (gmLocMatch location)).take 30
  else mapped.take 30

/-- Claim-side match predicate: the candidate's address or city contains
the requested location as a case-insensitive substring. -/
def specLocMatch (location : List Char) (r : LeadResult) : Bool :=
  jsIncludes (jsToLower (r.address.getD [])) (jsTrim (jsToLower location)) ||
  jsIncludes (jsToLower (r.city.getD [])) (jsTrim (jsToLower location))

theorem gmLocMatch_eq_spec (loc : List Char) (r : LeadResult) :
    gmLocMatch loc r = specLocMatch loc r := by
  unfold gmLocMatch specLocMatch
  by_cases h : jsToLower (r.city.getD []) = jsTrim (jsToLower loc)
  · rw [h]
    simp [jsIncludes_self]
  · have hbe : (jsToLower (r.city.getD []) == jsTrim (jsToLower loc)) = false := by
      simp [h]
    rw [hbe]
    simp

/-- C5 (amended): for every non-empty candidate list the location filter of
`scrapeGoogleMaps` returns a non-empty result; a candidate is kept when its
address or city contains the requested location as a case-insensitive
substring, the output being truncated to the first 30 kept candidates; and
when the filtering would leave zero candidates the first 30 of the
unfiltered input are returned instead. -/
theorem gmLocationFilter_nonempty_and_spec (mapped : List LeadResult) (loc : List Char) :
    (mapped ≠ [] → gmLocationFilter mapped loc ≠ []) ∧
    gmLocationFilter mapped loc =
      (if mapped.filter (specLocMatch loc) = [] then mapped.take 30
       else (mapped.filter (specLocMatch loc)).take 30) := by
  have hf : mapped.filter (gmLocMatch loc) = mapped.filter (specLocMatch loc) :=
    List.filter_congr (fun x _ => gmLocMatch_eq_spec loc x)
  have htake : ∀ l : List LeadResult, l ≠ [] → l.take 30 ≠ [] := by
    intro l hl hcontra
    have hp : 0 < l.length := List.length_pos.mpr hl
    have hlen := congrArg List.length hcontra
    simp only [List.length_take, List.length_nil] at hlen
    omega
  constructor
  · intro hne
    unfold gmLocationFilter
    rw [hf]
    split_ifs with h
    · exact htake _ (List.length_pos.mp h)
    · exact htake _ hne
  · unfold gmLocationFilter
    rw [hf]
    by_cases hemp : mapped.filter (specLocMatch loc) = []
    · rw [if_pos hemp, hemp]
      simp
    · have hp : 0 < (mapped.filter (specLocMatch loc)).length :=
        List.length_pos.mpr hemp
      rw [if_neg hemp, if_pos hp]

/-- Candidate located in Paris, used for location-filter tests. -/
def cxParis : LeadResult :=
  { business_name := ['P', 'x'],
    address := some ['p', 'a', 'r', 'i', 's'],
    city := some ['p', 'a', 'r', 'i', 's'] }

/-- The requested location `london`. -/
def cxLondon : List Char := ['l', 'o', 'n', 'd', 'o', 'n']

/-- C5 counterexample: 31 non-matching candidates; the claimed behavior is
to return the unfiltered input (31 entries), but the code truncates to the
first 30, so the output differs from the input list. -/
theorem gmLocationFilter_truncation_counterexample :
    (List.replicate 31 cxParis).filter (specLocMatch cxLondon) = [] ∧
    gmLocationFilter (List.replicate 31 cxParis) cxLondon ≠ List.replicate 31 cxParis := by
  refine ⟨by decide, by decide⟩

/-- Witness instantiating `gmLocationFilter_nonempty_and_spec` on a concrete
non-empty candidate list. -/
theorem gmLocationFilter_nonempty_and_spec_witness :
    gmLocationFilter [cxParis] cxLondon ≠ [] ∧
    gmLocationFilter [cxParis] cxLondon =
      (if [cxParis].filter (specLocMatch cxLondon) = [] then [cxParis].take 30
       else ([cxParis].filter (specLocMatch cxLondon)).take 30) :=
  ⟨(gmLocationFilter_nonempty_and_spec [cxParis] cxLondon).1 (by decide),
   (gmLocationFilter_nonempty_and_spec [cxParis] cxLondon).2⟩

/-! Email address extraction.  The JS regex
`[a-zA-Z0-9._%+-]+@[a-zA-Z0-9.-]+\.[a-zA-Z]{2,}` with the `g` flag is
modelled by an explicit scanner with the engine's greedy/backtracking
semantics. -/

/-- Character class `[a-zA-Z0-9._%+-]` (email local part). -/
def emailLocalChar (c : Char) : Bool :=
  c.isAlpha || c.isDigit || c = '.' || c = '_' || c = '%' || c = '+' || c = '-'

/-- Character class `[a-zA-Z0-9.-]` (email domain part). -/
def emailDomainChar (c : Char) : Bool :=
  c.isAlpha || c.isDigit || c = '.' || c = '-'

/-- One attempt of the email regex at the head of `l`.  The local part is
the maximal run of local characters, which must be non-empty and followed
by `@`; after `@`, the greedy domain run backs off to the largest split
`B+ . L{2,}`: the last dot position `k ≥ 1` inside the maximal domain run
that is followed by at least two letters, the letters being taken
greedily.  Returns the matched address and the rest of the text. -/
def emailMatchAt (l : List Char) : Option (List Char × List Char) :=
  let locals := l.takeWhile emailLocalChar
  let r1 := l.dropWhile emailLocalChar
  if locals.isEmpty then none
  else
    match r1 with
    | '@' :: r2 =>
        let brun := r2.takeWhile emailDomainChar
        let r3 := r2.dropWhile emailDomainChar
        match (List.range brun.length).reverse.find? (fun k =>
            decide (1 ≤ k) && ((brun.drop k).head? == some '.') &&
            decide (2 ≤ ((brun.drop (k + 1)).takeWhile Char.isAlpha).length)) with
        | some k =>
            let mlen := k + 1 + ((brun.drop (k + 1)).takeWhile Char.isAlpha).length
            some (locals ++ '@' :: brun.take mlen, brun.drop mlen ++ r3)
        | none => none
    | _ => none

/-- The global scan loop of `text.match(emailRegex)`.  Every step consumes
at least one character (a successful match is non-empty), so `text.length`
fuel never runs out before the text does. -/
def emailScanGo : Nat → List Char → List (List Char)
  | 0, _ => []
  | _ + 1, [] => []
  | fuel + 1, c :: t =>
      match emailMatchAt (c :: t) with
      | some (m, rest) => m :: emailScanGo fuel rest
      | none => emailScanGo fuel t

/-- All email regex matches of a text, in order. -/
def emailMatches (text : List Char) : List (List Char) := emailScanGo text.length text

/-- `s.endsWith(pat)`. -/
def jsEndsWith (s pat : List Char) : Bool := pat.isSuffixOf s

/-- The email noise filter of `enrichFromWebsite` (scrape route): reject
asset-extension artifacts, known noise tokens and implausible lengths, all
tested on the lower-cased address. -/
def scrapeEmailNoiseOk (e : List Char) : Bool :=
  !(jsEndsWith (jsToLower e) ".png".toList) &&
  !(jsEndsWith (jsToLower e) ".jpg".toList) &&
  !(jsEndsWith (jsToLower e) ".gif".toList) &&
  !(jsEndsWith (jsToLower e) ".svg".toList) &&
  !(jsEndsWith (jsToLower e) ".webp".toList) &&
  !(jsEndsWith (jsToLower e) ".css".toList) &&
  !(jsEndsWith (jsToLower e) ".js".toList) &&
  !(jsIncludes (jsToLower e) "example.com".toList) &&
  !(jsIncludes (jsToLower e) "sentry".toList) &&
  !(jsIncludes (jsToLower e) "webpack".toList) &&
  !(jsIncludes (jsToLower e) "wixpress".toList) &&
  !(jsIncludes (jsToLower e) "schema.org".toList) &&
  !(jsIncludes (jsToLower e) "googleapis".toList) &&
  !(jsIncludes (jsToLower e) "cloudflare".toList) &&
  !(jsIncludes (jsToLower e) "@2x".toList) &&
  !(jsIncludes (jsToLower e) "noreply".toList) &&
  !(jsIncludes (jsToLower e) "no-reply".toList) &&
  decide ((jsToLower e).length < 60) && decide (5 < (jsToLower e).length)

/-- `findIndex` over the preference array
`['info@','hello@','contact@','enquiries@','bookings@','reception@']`
applied to the lower-cased address, with `-1` mapped to 99 as in the
comparator. -/
def prefRank (a : List Char) : Int :=
  if "info@".toList.isPrefixOf (jsToLower a) then 0
  else if "hello@".toList.isPrefixOf (jsToLower a) then 1
  else if "contact@".toList.isPrefixOf (jsToLower a) then 2
  else if "enquiries@".toList.isPrefixOf (jsToLower a) then 3
  else if "bookings@".toList.isPrefixOf (jsToLower a) then 4
  else if "reception@".toList.isPrefixOf (jsToLower a) then 5
  else 99

/-- Domain flag of the comparator: 0 when the address contains the cleaned
website domain as a substring (`a.includes(domainClean)`), else 1. -/
def domFlag (domainClean a : List Char) : Int :=
  if jsIncludes a domainClean then 0 else 1

/-- The sort comparator of the email selection: domain-matching addresses
first, then by preference rank. -/
def emailCmp (domainClean a b : List Char) : Int :=
  if domFlag domainClean a ≠ domFlag domainClean b
  then domFlag domainClean a - domFlag domainClean b
  else prefRank a - prefRank b

/-- Insert for the stable sort: `x` moves past exactly the elements that
compare strictly before it. -/
def sortInsert {α : Type} (cmp : α → α → Int) (x : α) : List α → List α
  | [] => [x]
  | y :: ys => if cmp y x < 0 then y :: sortInsert cmp x ys else x :: y :: ys

/-- Stable sort modelling `Array.prototype.sort(cmp)` (stable per the
ECMAScript specification; a stable sort of a consistent comparator has a
unique result, so insertion sort is a faithful model). -/
def jsSortBy {α : Type} (cmp : α → α → Int) (l : List α) : List α :=
  l.foldr (sortInsert cmp) []

/-- The email selection pipeline of `enrichFromWebsite`: regex matches,
noise filter, stable sort by the comparator, first element. -/
def selectEmail (domainClean text : List Char) : Option (List Char) :=
  (jsSortBy (emailCmp domainClean) ((emailMatches text).filter scrapeEmailNoiseOk)).head?

/-! Instagram profile extraction.  The JS regex is
`(?:https?:\/\/)?(?:www\.)?instagram\.com\/([a-zA-Z0-9_.]{2,30})\/?` with
flags `gi` in the scrape route, and the same shape with `([a-zA-Z0-9_.]+)`
in the enrich route; `lo`/`hi` below are the handle length bounds. -/

/-- Character class `[a-zA-Z0-9_.]` (Instagram handle). -/
def igHandleChar (c : Char) : Bool := c.isAlpha || c.isDigit || c = '_' || c = '.'

/-- Case-insensitive literal match of `pat` (given lower-cased) at the head
of `l`; returns the rest on success. -/
def ciStrip (pat l : List Char) : Option (List Char) :=
  if jsToLower (l.take pat.length) = pat then some (l.drop pat.length) else none

/-- One attempt of the Instagram regex at the head of `l`: optional
protocol, optional `www.`, literal `instagram.com/` (case-insensitive),
then the handle run taken greedily up to `hi` with at least `lo`
characters, then an optional `/`.  Skipping a matched optional prefix can
never rescue a failed attempt (the following literal cannot restart with
`http`/`www.` characters consumed), so the optional parts are
deterministic.  Returns the captured handle and the rest after the whole
match. -/
def igMatchAt (lo : Nat) (hi : Option Nat) (l : List Char) : Option (List Char × List Char) :=
  let afterProto :=
    match ciStrip "https://".toList l with
    | some r => r
    | none =>
        match ciStrip "http://".toList l with
        | some r => r
        | none => l
  let afterWww :=
    match ciStrip "www.".toList afterProto with
    | some r => r
    | none => afterProto
  match ciStrip "instagram.com/".toList afterWww with
  | none => none
  | some r =>
      let run := r.takeWhile igHandleChar
      let capped := match hi with | some h => run.take h | none => run
      if capped.length < lo then none
      else
        let rest0 := r.drop capped.length
        let rest := match rest0 with | '/' :: t => t | _ => rest0
        some (capped, rest)

/-- The Instagram `exec` loop.  A successful match consumes at least the
literal `instagram.com/`, so `text.length` fuel never runs out early. -/
def igScanGo (lo : Nat) (hi : Option Nat) : Nat → List Char → List (List Char)
  | 0, _ => []
  | _ + 1, [] => []
  | fuel + 1, c :: t =>
      match igMatchAt lo hi (c :: t) with
      | some (h, rest) => h :: igScanGo lo hi fuel rest
      | none => igScanGo lo hi fuel t

/-- Reserved path segments rejected by the scrape-route Instagram loop. -/
def igReservedScrape : List (List Char) :=
  ["p", "reel", "reels", "stories", "explore", "accounts", "about",
   "developer", "legal", "privacy", "terms", "help"].map String.toList

/-- The Instagram extraction of `enrichFromWebsite`: every match whose
lower-cased handle is not a reserved segment, as profile URLs, in order
(the caller takes the first). -/
def scrapeIgMatches (text : List Char) : List (List Char) :=
  ((igScanGo 2 (some 30) text.length text).filter
    (fun h => !(igReservedScrape.contains (jsToLower h)))).map
    (fun h => "https://instagram.com/".toList ++ h)

/-! Phone extraction (scrape route).  The JS regex is
`(?:tel:|phone:|call\s*:?\s*)?(\+?[\d][\d\s()-]{9,18}\d)` with flags `gi`;
`match()` returns the full matches, which are then re-stripped of the
prefix, trimmed, and filtered to 10–15 digits. -/

/-- Character class `[\d\s()-]` (scrape-route phone body). -/
def phoneBodyChar (c : Char) : Bool :=
  c.isDigit || c.isWhitespace || c = '(' || c = ')' || c = '-'

/-- The captured body `\+?[\d][\d\s()-]{9,18}\d` at the head of `l`:
optional plus, one digit, then the largest `k ∈ [9,18]` body characters
followed by one more digit.  Returns the matched body and the rest. -/
def phoneBodyAt (l : List Char) : Option (List Char × List Char) :=
  let plus : List Char := match l with | '+' :: _ => ['+'] | _ => []
  let l1 := match l with | '+' :: t => t | _ => l
  match l1 with
  | [] => none
  | d :: t =>
      if d.isDigit then
        match (List.range 10).reverse.find? (fun i =>
            decide ((t.take (9 + i)).length = 9 + i) &&
            (t.take (9 + i)).all phoneBodyChar &&
            (match (t.drop (9 + i)).head? with | some c2 => c2.isDigit | none => false)) with
        | some i =>
            match (t.drop (9 + i)).head? with
            | some c2 => some (plus ++ d :: (t.take (9 + i) ++ [c2]), t.drop (9 + i + 1))
            | none => none
        | none => none
      else none

/-- The optional label alternation `(?:tel:|phone:|call\s*:?\s*)`
(case-insensitive, alternatives tried in order; they are mutually
exclusive).  Returns the consumed text and the rest. -/
def phoneLabelAt (l : List Char) : Option (List Char × List Char) :=
  match ciStrip "tel:".toList l with
  | some r => some (l.take 4, r)
  | none =>
      match ciStrip "phone:".toList l with
      | some r => some (l.take 6, r)
      | none =>
          match ciStrip "call".toList l with
          | some r =>
              let ws1 := r.takeWhile Char.isWhitespace
              let r1 := r.dropWhile Char.isWhitespace
              let col : List Char := match r1 with | ':' :: _ => [':'] | _ => []
              let r2 := match r1 with | ':' :: t => t | _ => r1
              let ws2 := r2.takeWhile Char.isWhitespace
              let r3 := r2.dropWhile Char.isWhitespace
              some (l.take 4 ++ ws1 ++ col ++ ws2, r3)
          | none => none

/-- One attempt of the full scrape-route phone regex at the head of `l`:
labelled body first, then (the optional group skipped) the bare body. -/
def phoneMatchAt (l : List Char) : Option (List Char × List Char) :=
  match phoneLabelAt l with
  | some (consumed, r) =>
      match phoneBodyAt r with
      | some (body, rest) => some (consumed ++ body, rest)
      | none => phoneBodyAt l
  | none => phoneBodyAt l

/-- The global scan of the scrape-route phone regex. -/
def phoneScanGo : Nat → List Char → List (List Char)
  | 0, _ => []
  | _ + 1, [] => []
  | fuel + 1, c :: t =>
      match phoneMatchAt (c :: t) with
      | some (m, rest) => m :: phoneScanGo fuel rest
      | none => phoneScanGo fuel t

/-- The post-processing `replace(/^(tel:|phone:|call\s*:?\s*)/i, '').trim()`
of each matched phone string. -/
def phoneStripLabel (p : List Char) : List Char :=
  jsTrim (match phoneLabelAt p with | some (_, r) => r | none => p)

/-- The scrape-route phone extraction: full regex matches, stripped and
trimmed, filtered to 10–15 digits; the caller takes the first. -/
def scrapePhones (text : List Char) : List (List Char) :=
  ((phoneScanGo text.length text).map phoneStripLabel).filter
    (fun p => decide (10 ≤ (p.filter Char.isDigit).length) &&
      decide ((p.filter Char.isDigit).length ≤ 15))

/-! `enrichFromWebsite` (scrape route).  The outbound fetches appear as a
crawl oracle: the homepage markdown when that fetch succeeded, and one
optional markdown per contact path. -/

/-- Truthiness of an optional `List Char` field. -/
def truthyL : Option (List Char) → Bool
  | none => false
  | some s => !s.isEmpty

/-- `website.replace(/https?:\/\//, '')`: remove the first occurrence of
`http://` or `https://` (at a given position the engine prefers the longer
`https` variant). -/
def removeProto : List Char → List Char
  | [] => []
  | c :: t =>
      if "https://".toList.isPrefixOf (c :: t) then t.drop 7
      else if "http://".toList.isPrefixOf (c :: t) then t.drop 6
      else c :: removeProto t

/-- `.replace(/\/$/, '')`: drop a single trailing slash. -/
def dropTrailingSlash (s : List Char) : List Char :=
  match s.reverse with
  | '/' :: t => t.reverse
  | _ => s

/-- `domain.replace('www.', '')`: remove the first occurrence of the plain
string `www.`. -/
def removeWww : List Char → List Char
  | [] => []
  | c :: t =>
      if "www.".toList.isPrefixOf (c :: t) then t.drop 3
      else c :: removeWww t

/-- Crawl outcome oracle for one lead: `homepage` is the fetched markdown
when the homepage scrape responded ok (possibly empty), and `contacts`
holds one entry per contact path (`/contact`, `/contact-us`, `/about`,
`/about-us`), `none` for a failed or non-ok fetch. -/
structure CrawlData where
  homepage : Option (List Char) := none
  contacts : List (Option (List Char)) := []
deriving Repr, DecidableEq

/-- The email mutation step of `enrichFromWebsite`: only fires when the
email is falsy and a candidate was selected. -/
def applyEmailUpdate (domainClean allText : List Char) (lead : LeadResult) : LeadResult :=
  if !truthyL lead.email then
    match selectEmail domainClean allText with
    | some e => { lead with email := some e }
    | none => lead
  else lead

/-- The Instagram mutation step of `enrichFromWebsite`. -/
def applyIgUpdate (allText : List Char) (lead : LeadResult) : LeadResult :=
  if !truthyL lead.instagram_url then
    match (scrapeIgMatches allText).head? with
    | some u => { lead with instagram_url := some u }
    | none => lead
  else lead

/-- The phone mutation step of `enrichFromWebsite`. -/
def applyPhoneUpdate (allText : List Char) (lead : LeadResult) : LeadResult :=
  if !truthyL lead.phone then
    match (scrapePhones allText).head? with
    | some p => { lead with phone := some p }
    | none => lead
  else lead

/-- The `allText` accumulator of `enrichFromWebsite`: the homepage markdown
plus `\n` when that fetch succeeded, then — only when the email is still
falsy — the first contact page whose markdown exceeds 100 characters,
plus `\n`. -/
def enrichAllText (cd : CrawlData) (lead : LeadResult) : List Char :=
  (match cd.homepage with | some md => md ++ ['\n'] | none => []) ++
  (if !truthyL lead.email then
    match cd.contacts.find?
        (fun o => match o with | some md => decide (100 < md.length) | none => false) with
    | some (some md) => md ++ ['\n']
    | _ => []
  else [])

/-- `enrichFromWebsite` from the scrape route: skip leads without a truthy
website, with both email and Instagram already truthy, or without a
Firecrawl key; otherwise crawl, and fill each falsy field from the
heuristics.  Fetch failures surface as an empty `allText`, in which case
the lead is returned unchanged. -/
def enrichFromWebsite (hasKey : Bool) (cd : CrawlData) (lead : LeadResult) : LeadResult :=
  if !truthyL lead.website then lead
  else if truthyL lead.email && truthyL lead.instagram_url then lead
  else if !hasKey then lead
  else if (enrichAllText cd lead).isEmpty then lead
  else
    applyPhoneUpdate (enrichAllText cd lead)
      (applyIgUpdate (enrichAllText cd lead)
        (applyEmailUpdate
          (removeWww (dropTrailingSlash (removeProto (lead.website.getD []))))
          (enrichAllText cd lead) lead))

/-- Sequential batching: map `f` over the list in chunks of `n` (the
`for (let i = 0; i < list.length; i += n)` loop of `enrichLeadsBatch`). -/
def chunkMap {α β : Type} (f : α → β) (n : Nat) : List α → List β
  | [] => []
  | x :: xs => (f x :: (xs.take (n - 1)).map f) ++ chunkMap f n (xs.drop (n - 1))
  termination_by l => l.length
  decreasing_by simp only [List.length_drop, List.length_cons]; omega

/-- `enrichLeadsBatch` from the scrape route: partition into leads needing
enrichment (truthy website and a falsy email or Instagram) and the rest;
when nothing needs enrichment return the input unchanged, otherwise return
the untouched leads followed by the enriched ones, processed in sequential
batches of `maxConcurrent`. -/
def enrichLeadsBatch (hasKey : Bool) (crawl : LeadResult → CrawlData)
    (leads : List LeadResult) (maxConcurrent : Nat := 5) : List LeadResult :=
  let needsEnrichment := leads.filter
    (fun l => truthyL l.website && (!truthyL l.email || !truthyL l.instagram_url))
  let alreadyComplete := leads.filter
    (fun l => !truthyL l.website || (truthyL l.email && truthyL l.instagram_url))
  if needsEnrichment.isEmpty then leads
  else alreadyComplete ++
    chunkMap (fun l => enrichFromWebsite hasKey (crawl l) l) maxConcurrent needsEnrichment

/-- The auto-enrich block of the search handler `POST`: with a Firecrawl
key, enrich the first 15 de-duplicated results in batches of 3 and append
the rest untouched; without a key — or when the enrichment promise
rejects, modelled by `failed` — the de-duplicated results pass through
unchanged. -/
def autoEnrich (hasKey failed : Bool) (crawl : LeadResult → CrawlData)
    (unique : List LeadResult) : List LeadResult :=
  if hasKey then
    if failed then unique
    else enrichLeadsBatch hasKey crawl (unique.take 15) 3 ++ unique.drop 15
  else unique

/-! The enrichment endpoint (`src/app/api/enrich/route.ts`). -/

/-- The email noise filter of the enrich route's `extractEmails` (a shorter
list of conditions than the scrape route, and no lower length bound). -/
def enrichEmailNoiseOk (e : List Char) : Bool :=
  !(jsEndsWith (jsToLower e) ".png".toList) &&
  !(jsEndsWith (jsToLower e) ".jpg".toList) &&
  !(jsEndsWith (jsToLower e) ".gif".toList) &&
  !(jsEndsWith (jsToLower e) ".svg".toList) &&
  !(jsIncludes (jsToLower e) "example.com".toList) &&
  !(jsIncludes (jsToLower e) "sentry".toList) &&
  !(jsIncludes (jsToLower e) "webpack".toList) &&
  !(jsIncludes (jsToLower e) "wixpress".toList) &&
  !(jsIncludes (jsToLower e) "schema.org".toList) &&
  !(jsIncludes (jsToLower e) "@2x".toList) &&
  decide ((jsToLower e).length < 60)

/-- `Array.from(new Set(xs))`: drop duplicates keeping first occurrences
(JS `Set` preserves insertion order). -/
def jsSetDedup (l : List (List Char)) : List (List Char) := go [] l
where go (seen : List (List Char)) : List (List Char) → List (List Char)
  | [] => []
  | x :: t => if x ∈ seen then go seen t else x :: go (x :: seen) t

/-- `extractEmails` of the enrich route: regex matches, noise filter,
set-dedup. -/
def enrichExtractEmails (text : List Char) : List (List Char) :=
  jsSetDedup ((emailMatches text).filter enrichEmailNoiseOk)

/-- `extractInstagram` of the enrich route: a single `exec` (first match
only, minimum handle length 1, unbounded), rejected entirely when the
handle is one of five reserved segments (compared without lower-casing). -/
def enrichExtractInstagram (text : List Char) : Option (List Char) :=
  match (igScanGo 1 none text.length text).head? with
  | some h =>
      if (["p", "reel", "stories", "explore", "accounts"].map String.toList).contains h
      then none
      else some ("https://instagram.com/".toList ++ h)
  | none => none

/-- Character class `[\d\s\-().]` of the enrich-route phone regex. -/
def enrichPhoneChar (c : Char) : Bool :=
  c.isDigit || c.isWhitespace || c = '-' || c = '(' || c = ')' || c = '.'

/-- One attempt of `\+?[\d\s\-().]{10,20}` at the head of `l`: optional
plus, then greedily up to 20 class characters, at least 10. -/
def enrichPhoneMatchAt (l : List Char) : Option (List Char × List Char) :=
  let plus : List Char := match l with | '+' :: _ => ['+'] | _ => []
  let l1 := match l with | '+' :: t => t | _ => l
  let run := l1.takeWhile enrichPhoneChar
  let k := min run.length 20
  if 10 ≤ k then some (plus ++ run.take k, l1.drop k) else none

/-- The global scan of the enrich-route phone regex. -/
def enrichPhoneScanGo : Nat → List Char → List (List Char)
  | 0, _ => []
  | _ + 1, [] => []
  | fuel + 1, c :: t =>
      match enrichPhoneMatchAt (c :: t) with
      | some (m, rest) => m :: enrichPhoneScanGo fuel rest
      | none => enrichPhoneScanGo fuel t

/-- `extractPhones` of the enrich route: matches cleaned to digits and `+`,
filtered to length 10–15; first one or `null`. -/
def enrichExtractPhones (text : List Char) : Option (List Char) :=
  (((enrichPhoneScanGo text.length text).map
      (fun p => p.filter (fun c => c.isDigit || c = '+'))).filter
    (fun p => decide (10 ≤ p.length) && decide (p.length ≤ 15))).head?

/-- The email update of the enrich route's per-lead loop. -/
def routeEmailUpdate (text : List Char) (lead : LeadResult) : LeadResult :=
  if !truthyL lead.email then
    match (enrichExtractEmails text).head? with
    | some e => { lead with email := some e }
    | none => lead
  else lead

/-- The phone update of the enrich route's per-lead loop. -/
def routePhoneUpdate (text : List Char) (lead : LeadResult) : LeadResult :=
  if !truthyL lead.phone then
    match enrichExtractPhones text with
    | some p => { lead with phone := some p }
    | none => lead
  else lead

/-- The Instagram update of the enrich route's per-lead loop. -/
def routeIgUpdate (text : List Char) (lead : LeadResult) : LeadResult :=
  if !truthyL lead.instagram_url then
    match enrichExtractInstagram text with
    | some u => { lead with instagram_url := some u }
    | none => lead
  else lead

/-- One iteration of the enrich route `POST` loop for a lead already loaded
from the store: skip leads without a truthy website or with email, phone
and Instagram all truthy; skip failed crawls (`none`); otherwise apply the
update object built from the three extractors (each only when the
corresponding field is falsy). -/
def enrichRouteApply (crawl : Option (List Char)) (lead : LeadResult) : LeadResult :=
  if !truthyL lead.website then lead
  else if truthyL lead.email && truthyL lead.phone && truthyL lead.instagram_url then lead
  else
    match crawl with
    | none => lead
    | some text => routeIgUpdate text (routePhoneUpdate text (routeEmailUpdate text lead))

theorem truthyL_some_ne {s : List Char} (h : s ≠ []) : truthyL (some s) = true := by
  simp [truthyL, h]

theorem applyEmailUpdate_phone (dc t : List Char) (lead : LeadResult) :
    (applyEmailUpdate dc t lead).phone = lead.phone := by
  unfold applyEmailUpdate; split <;> first | rfl | (split <;> rfl)

theorem applyEmailUpdate_ig (dc t : List Char) (lead : LeadResult) :
    (applyEmailUpdate dc t lead).instagram_url = lead.instagram_url := by
  unfold applyEmailUpdate; split <;> first | rfl | (split <;> rfl)

theorem applyEmailUpdate_of_truthy (dc t : List Char) (lead : LeadResult)
    (h : truthyL lead.email = true) : applyEmailUpdate dc t lead = lead := by
  simp [applyEmailUpdate, h]

theorem applyIgUpdate_email (t : List Char) (lead : LeadResult) :
    (applyIgUpdate t lead).email = lead.email := by
  unfold applyIgUpdate; split <;> first | rfl | (split <;> rfl)

theorem applyIgUpdate_phone (t : List Char) (lead : LeadResult) :
    (applyIgUpdate t lead).phone = lead.phone := by
  unfold applyIgUpdate; split <;> first | rfl | (split <;> rfl)

theorem applyIgUpdate_of_truthy (t : List Char) (lead : LeadResult)
    (h : truthyL lead.instagram_url = true) : applyIgUpdate t lead = lead := by
  simp [applyIgUpdate, h]

theorem applyPhoneUpdate_email (t : List Char) (lead : LeadResult) :
    (applyPhoneUpdate t lead).email = lead.email := by
  unfold applyPhoneUpdate; split <;> first | rfl | (split <;> rfl)

theorem applyPhoneUpdate_ig (t : List Char) (lead : LeadResult) :
    (applyPhoneUpdate t lead).instagram_url = lead.instagram_url := by
  unfold applyPhoneUpdate; split <;> first | rfl | (split <;> rfl)

theorem applyPhoneUpdate_of_truthy (t : List Char) (lead : LeadResult)
    (h : truthyL lead.phone = true) : applyPhoneUpdate t lead = lead := by
  simp [applyPhoneUpdate, h]

theorem routeEmailUpdate_phone (t : List Char) (lead : LeadResult) :
    (routeEmailUpdate t lead).phone = lead.phone := by
  unfold routeEmailUpdate; split <;> first | rfl | (split <;> rfl)

theorem routeEmailUpdate_ig (t : List Char) (lead : LeadResult) :
    (routeEmailUpdate t lead).instagram_url = lead.instagram_url := by
  unfold routeEmailUpdate; split <;> first | rfl | (split <;> rfl)

theorem routeEmailUpdate_of_truthy (t : List Char) (lead : LeadResult)
    (h : truthyL lead.email = true) : routeEmailUpdate t lead = lead := by
  simp [routeEmailUpdate, h]

theorem routePhoneUpdate_email (t : List Char) (lead : LeadResult) :
    (routePhoneUpdate t lead).email = lead.email := by
  unfold routePhoneUpdate; split <;> first | rfl | (split <;> rfl)

theorem routePhoneUpdate_ig (t : List Char) (lead : LeadResult) :
    (routePhoneUpdate t lead).instagram_url = lead.instagram_url := by
  unfold routePhoneUpdate; split <;> first | rfl | (split <;> rfl)

theorem routePhoneUpdate_of_truthy (t : List Char) (lead : LeadResult)
    (h : truthyL lead.phone = true) : routePhoneUpdate t lead = lead := by
  simp [routePhoneUpdate, h]

theorem routeIgUpdate_email (t : List Char) (lead : LeadResult) :
    (routeIgUpdate t lead).email = lead.email := by
  unfold routeIgUpdate; split <;> first | rfl | (split <;> rfl)

theorem routeIgUpdate_phone (t : List Char) (lead : LeadResult) :
    (routeIgUpdate t lead).phone = lead.phone := by
  unfold routeIgUpdate; split <;> first | rfl | (split <;> rfl)

theorem routeIgUpdate_of_truthy (t : List Char) (lead : LeadResult)
    (h : truthyL lead.instagram_url = true) : routeIgUpdate t lead = lead := by
  simp [routeIgUpdate, h]

/-- C6 (amended): enrichment never overwrites a non-empty field.  For every
lead whose email (respectively phone, Instagram handle) is a non-empty
string, both the scrape-route `enrichFromWebsite` and the enrich-route
update leave that field unchanged, regardless of crawl content.  (Fields
holding the empty string are falsy in JS and are treated as missing.) -/
theorem enrich_preserves_nonempty_fields :
    (∀ (hasKey : Bool) (cd : CrawlData) (lead : LeadResult) (e : List Char),
      lead.email = some e → e ≠ [] → (enrichFromWebsite hasKey cd lead).email = some e) ∧
    (∀ (hasKey : Bool) (cd : CrawlData) (lead : LeadResult) (p : List Char),
      lead.phone = some p → p ≠ [] → (enrichFromWebsite hasKey cd lead).phone = some p) ∧
    (∀ (hasKey : Bool) (cd : CrawlData) (lead : LeadResult) (u : List Char),
      lead.instagram_url = some u → u ≠ [] →
        (enrichFromWebsite hasKey cd lead).instagram_url = some u) ∧
    (∀ (crawl : Option (List Char)) (lead : LeadResult) (e : List Char),
      lead.email = some e → e ≠ [] → (enrichRouteApply crawl lead).email = some e) ∧
    (∀ (crawl : Option (List Char)) (lead : LeadResult) (p : List Char),
      lead.phone = some p → p ≠ [] → (enrichRouteApply crawl lead).phone = some p) ∧
    (∀ (crawl : Option (List Char)) (lead : LeadResult) (u : List Char),
      lead.instagram_url = some u → u ≠ [] →
        (enrichRouteApply crawl lead).instagram_url = some u) := by
  refine ⟨?_, ?_, ?_, ?_, ?_, ?_⟩
  · intro hasKey cd lead e hsome hne
    have ht : truthyL lead.email = true := by rw [hsome]; exact truthyL_some_ne hne
    unfold enrichFromWebsite
    split_ifs <;> try exact hsome
    rw [applyPhoneUpdate_email, applyIgUpdate_email,
      applyEmailUpdate_of_truthy _ _ _ ht]
    exact hsome
  · intro hasKey cd lead p hsome hne
    unfold enrichFromWebsite
    split_ifs <;> try exact hsome
    have hframe : (applyIgUpdate (enrichAllText cd lead)
        (applyEmailUpdate (removeWww (dropTrailingSlash (removeProto (lead.website.getD []))))
          (enrichAllText cd lead) lead)).phone = lead.phone := by
      rw [applyIgUpdate_phone, applyEmailUpdate_phone]
    rw [applyPhoneUpdate_of_truthy _ _ (by rw [hframe, hsome]; exact truthyL_some_ne hne),
      hframe]
    exact hsome
  · intro hasKey cd lead u hsome hne
    unfold enrichFromWebsite
    split_ifs <;> try exact hsome
    have hframe : (applyEmailUpdate
        (removeWww (dropTrailingSlash (removeProto (lead.website.getD []))))
        (enrichAllText cd lead) lead).instagram_url = lead.instagram_url :=
      applyEmailUpdate_ig _ _ _
    rw [applyPhoneUpdate_ig,
      applyIgUpdate_of_truthy _ _ (by rw [hframe, hsome]; exact truthyL_some_ne hne),
      hframe]
    exact hsome
  · intro crawl lead e hsome hne
    have ht : truthyL lead.email = true := by rw [hsome]; exact truthyL_some_ne hne
    unfold enrichRouteApply
    split_ifs <;> try exact hsome
    cases crawl with
    | none => exact hsome
    | some text =>
        dsimp only
        rw [routeIgUpdate_email, routePhoneUpdate_email,
          routeEmailUpdate_of_truthy _ _ ht]
        exact hsome
  · intro crawl lead p hsome hne
    unfold enrichRouteApply
    split_ifs <;> try exact hsome
    cases crawl with
    | none => exact hsome
    | some text =>
        dsimp only
        have hframe : (routeEmailUpdate text lead).phone = lead.phone :=
          routeEmailUpdate_phone _ _
        rw [routeIgUpdate_phone,
          routePhoneUpdate_of_truthy _ _ (by rw [hframe, hsome]; exact truthyL_some_ne hne),
          hframe]
        exact hsome
  · intro crawl lead u hsome hne
    unfold enrichRouteApply
    split_ifs <;> try exact hsome
    cases crawl with
    | none => exact hsome
    | some text =>
        dsimp only
        have hframe : (routePhoneUpdate text (routeEmailUpdate text lead)).instagram_url =
            lead.instagram_url := by
          rw [routePhoneUpdate_ig, routeEmailUpdate_ig]
        rw [routeIgUpdate_of_truthy _ _ (by rw [hframe, hsome]; exact truthyL_some_ne hne),
          hframe]
        exact hsome

/-- Lead with a populated website and an empty-string email (non-null in
the store, but falsy in JS). -/
def cxEmptyEmailLead : LeadResult :=
  { business_name := "Spa".toList, website := some "x.co".toList, email := some [] }

/-- Crawl oracle whose homepage markdown carries a contact email. -/
def cxCrawl : CrawlData := { homepage := some "mail info@x.co here".toList, contacts := [] }

/-- C6 counterexample: a lead whose email is the non-null empty string is
overwritten by enrichment (the code guards with JS truthiness `!lead.email`,
not a null check), so "non-null fields are never overwritten" fails. -/
theorem enrich_overwrites_empty_string_counterexample :
    cxEmptyEmailLead.email = some [] ∧
    (enrichFromWebsite true cxCrawl cxEmptyEmailLead).email = some "info@x.co".toList := by
  refine ⟨rfl, by decide⟩

/-- Lead with non-empty email, phone and Instagram, used as witness input. -/
def cxFullLead : LeadResult :=
  { business_name := "Spa".toList, website := some "x.co".toList,
    email := some "a@b.co".toList, phone := some "0123456789".toList,
    instagram_url := some "https://instagram.com/spa".toList }

/-- Witness instantiating `enrich_preserves_nonempty_fields` at a concrete
populated lead. -/
theorem enrich_preserves_nonempty_fields_witness :
    (enrichFromWebsite true cxCrawl cxFullLead).email = some "a@b.co".toList ∧
    (enrichFromWebsite true cxCrawl cxFullLead).phone = some "0123456789".toList ∧
    (enrichFromWebsite true cxCrawl cxFullLead).instagram_url =
      some "https://instagram.com/spa".toList ∧
    (enrichRouteApply (some "crawl text".toList) cxFullLead).email = some "a@b.co".toList ∧
    (enrichRouteApply (some "crawl text".toList) cxFullLead).phone =
      some "0123456789".toList ∧
    (enrichRouteApply (some "crawl text".toList) cxFullLead).instagram_url =
      some "https://instagram.com/spa".toList :=
  ⟨enrich_preserves_nonempty_fields.1 true cxCrawl cxFullLead _ rfl (by decide),
   enrich_preserves_nonempty_fields.2.1 true cxCrawl cxFullLead _ rfl (by decide),
   enrich_preserves_nonempty_fields.2.2.1 true cxCrawl cxFullLead _ rfl (by decide),
   enrich_preserves_nonempty_fields.2.2.2.1 (some "crawl text".toList) cxFullLead _ rfl
     (by decide),
   enrich_preserves_nonempty_fields.2.2.2.2.1 (some "crawl text".toList) cxFullLead _ rfl
     (by decide),
   enrich_preserves_nonempty_fields.2.2.2.2.2 (some "crawl text".toList) cxFullLead _ rfl
     (by decide)⟩

/-- Numeric key equivalent of the email comparator: domain flag (0 when the
address contains the cleaned website domain) in the hundreds, preference
rank in the units.  Smaller keys sort first. -/
def emailKey (domainClean a : List Char) : Int :=
  domFlag domainClean a * 100 + prefRank a

theorem prefRank_bounds (a : List Char) : 0 ≤ prefRank a ∧ prefRank a ≤ 99 := by
  unfold prefRank; split_ifs <;> omega

theorem domFlag_bounds (dc a : List Char) : 0 ≤ domFlag dc a ∧ domFlag dc a ≤ 1 := by
  unfold domFlag; split <;> omega

theorem emailCmp_lt_iff (dc a b : List Char) :
    emailCmp dc a b < 0 ↔ emailKey dc a < emailKey dc b := by
  have ha := prefRank_bounds a
  have hb := prefRank_bounds b
  have da := domFlag_bounds dc a
  have db := domFlag_bounds dc b
  unfold emailCmp emailKey
  split_ifs with h <;> omega

theorem sortInsert_ne_nil {α : Type} (cmp : α → α → Int) (x : α) (l : List α) :
    sortInsert cmp x l ≠ [] := by
  cases l with
  | nil => simp [sortInsert]
  | cons y ys =>
      have h : sortInsert cmp x (y :: ys) =
          if cmp y x < 0 then y :: sortInsert cmp x ys else x :: y :: ys := rfl
      rw [h]
      split <;> simp

theorem jsSortBy_head_min (dc : List Char) :
    ∀ (l : List (List Char)) (e : List Char),
      (jsSortBy (emailCmp dc) l).head? = some e →
      e ∈ l ∧ ∀ x ∈ l, emailKey dc e ≤ emailKey dc x := by
  intro l
  induction l with
  | nil => intro e he; simp [jsSortBy] at he
  | cons a t ih =>
    intro e he
    have hstep : jsSortBy (emailCmp dc) (a :: t) =
        sortInsert (emailCmp dc) a (jsSortBy (emailCmp dc) t) := rfl
    rw [hstep] at he
    cases hs : jsSortBy (emailCmp dc) t with
    | nil =>
        rw [hs] at he
        simp only [sortInsert, List.head?] at he
        obtain rfl := Option.some.inj he
        refine ⟨List.mem_cons_self _ _, ?_⟩
        intro x hx
        rcases List.mem_cons.mp hx with rfl | hx'
        · exact le_refl _
        · exfalso
          have hperm : t = [] := by
            by_contra hne
            cases t with
            | nil => exact hne rfl
            | cons b bs =>
                have : sortInsert (emailCmp dc) b (jsSortBy (emailCmp dc) bs) = [] := hs
                exact sortInsert_ne_nil _ _ _ this
          rw [hperm] at hx'
          exact List.not_mem_nil _ hx'
    | cons b rest =>
        rw [hs] at he
        have hb : (jsSortBy (emailCmp dc) t).head? = some b := by rw [hs]; rfl
        obtain ⟨hbmem, hbmin⟩ := ih b hb
        have hins : sortInsert (emailCmp dc) a (b :: rest) =
            if emailCmp dc b a < 0 then b :: sortInsert (emailCmp dc) a rest
            else a :: b :: rest := rfl
        by_cases hlt : emailCmp dc b a < 0
        · rw [hins, if_pos hlt] at he
          simp only [List.head?] at he
          have heb : e = b := (Option.some.inj he).symm
          subst heb
          refine ⟨List.mem_cons_of_mem _ hbmem, ?_⟩
          intro x hx
          rcases List.mem_cons.mp hx with rfl | hx'
          · exact le_of_lt ((emailCmp_lt_iff dc e x).mp hlt)
          · exact hbmin x hx'
        · rw [hins, if_neg hlt] at he
          simp only [List.head?] at he
          have hea : e = a := (Option.some.inj he).symm
          subst hea
          refine ⟨List.mem_cons_self _ _, ?_⟩
          intro x hx
          have hab : emailKey dc e ≤ emailKey dc b := by
            have hnot := (emailCmp_lt_iff dc b e).not.mp hlt
            omega
          rcases List.mem_cons.mp hx with rfl | hx'
          · exact le_refl _
          · exact le_trans hab (hbmin x hx')

theorem jsSortBy_all_worst (dc : List Char) :
    ∀ l : List (List Char),
      (∀ x ∈ l, jsIncludes x dc = false ∧ prefRank x = 99) →
      jsSortBy (emailCmp dc) l = l := by
  intro l
  induction l with
  | nil => intro _; rfl
  | cons a t ih =>
    intro hall
    have hstep : jsSortBy (emailCmp dc) (a :: t) =
        sortInsert (emailCmp dc) a (jsSortBy (emailCmp dc) t) := rfl
    rw [hstep, ih (fun x hx => hall x (List.mem_cons_of_mem _ hx))]
    have hkey : ∀ x ∈ a :: t, emailKey dc x = 199 := by
      intro x hx
      obtain ⟨h1, h2⟩ := hall x hx
      unfold emailKey domFlag
      rw [h1]
      simp [h2]
    cases t with
    | nil => rfl
    | cons b bs =>
        have hnlt : ¬ emailCmp dc b a < 0 := by
          rw [emailCmp_lt_iff, hkey a (List.mem_cons_self _ _),
            hkey b (List.mem_cons_of_mem _ (List.mem_cons_self _ _))]
          omega
        unfold sortInsert
        rw [if_neg hnlt]

/-- Lead for the documented end-to-end email-selection scenario: website
domain `acme.com`. -/
def cxAcmeLead : LeadResult :=
  { business_name := "Acme".toList, website := some "https://acme.com".toList }

/-- Crawl oracle whose homepage markdown carries the three scenario
addresses. -/
def cxAcmeCrawl : CrawlData :=
  { homepage :=
      some "Contact info@acme.com or someone@tracking-pixel.com or support@othersite.com".toList }

/-- Stated from the claim wording: the domain of an email address, i.e. the
segment after its final `@`. -/
def emailDomain (a : List Char) : List Char :=
  (a.reverse.takeWhile (fun c => c ≠ '@')).reverse

/-- Lead with website domain `acme.com`, crawled against a page carrying a
genuinely domain-matching address and a look-alike. -/
def cxFakeLead : LeadResult :=
  { business_name := "Acme".toList, website := some "https://acme.com".toList }

/-- Crawl oracle whose homepage carries `bookings@acme.com` (domain is
exactly `acme.com`) and `info@acme.com.fake.io` (domain is
`acme.com.fake.io`, which merely contains `acme.com` as a substring). -/
def cxFakeCrawl : CrawlData :=
  { homepage := some "Write bookings@acme.com or info@acme.com.fake.io today".toList }

/-- C7 counterexample: the comparator tests substring containment
(`a.includes(domainClean)`), not domain equality.  Of the two page
addresses only `bookings@acme.com` has domain `acme.com`, yet enrichment
selects `info@acme.com.fake.io` (containment flag 0 and preference rank 0
beat containment flag 0 and rank 4), so "an address whose domain matches
the lead's own website domain is preferred over all others" is false on
the code. -/
theorem emailSelection_domain_match_counterexample :
    emailDomain "bookings@acme.com".toList = "acme.com".toList ∧
    emailDomain "info@acme.com.fake.io".toList ≠ "acme.com".toList ∧
    (enrichFromWebsite true cxFakeCrawl cxFakeLead).email =
      some "info@acme.com.fake.io".toList := by
  refine ⟨by decide, by decide, by decide⟩

/-- C7 (amended): email selection follows the code's preference order,
where the first criterion is substring containment of the cleaned website
domain (`a.includes(domainClean)`), not domain equality.  The selected
address is always a minimizer of the comparator key over the candidate
list; an address containing the domain beats every address that does not;
among addresses with the same containment flag a smaller preference-prefix
rank wins; when no address contains the domain or starts with a preferred
prefix the first remaining match is kept; and on the documented scenario
(`acme.com` site text containing `info@acme.com`,
`someone@tracking-pixel.com`, `support@othersite.com`) enrichment selects
`info@acme.com`. -/
theorem emailSelection_preference_order :
    (∀ (dc : List Char) (emails : List (List Char)) (e : List Char),
      (jsSortBy (emailCmp dc) emails).head? = some e →
        e ∈ emails ∧ ∀ x ∈ emails, emailKey dc e ≤ emailKey dc x) ∧
    (∀ dc a b : List Char, jsIncludes a dc = true → jsIncludes b dc = false →
      emailKey dc a < emailKey dc b) ∧
    (∀ dc a b : List Char, jsIncludes a dc = jsIncludes b dc →
      prefRank a < prefRank b → emailKey dc a < emailKey dc b) ∧
    (∀ (dc : List Char) (emails : List (List Char)),
      (∀ x ∈ emails, jsIncludes x dc = false ∧ prefRank x = 99) →
      (jsSortBy (emailCmp dc) emails).head? = emails.head?) ∧
    (enrichFromWebsite true cxAcmeCrawl cxAcmeLead).email = some "info@acme.com".toList := by
  refine ⟨jsSortBy_head_min, ?_, ?_, ?_, by decide⟩
  · intro dc a b h1 h2
    have hfa : domFlag dc a = 0 := by simp [domFlag, h1]
    have hfb : domFlag dc b = 1 := by simp [domFlag, h2]
    have hra := prefRank_bounds a
    have hrb := prefRank_bounds b
    unfold emailKey
    rw [hfa, hfb]
    omega
  · intro dc a b heq hlt
    unfold emailKey domFlag
    rw [heq]
    split <;> omega
  · intro dc emails hall
    rw [jsSortBy_all_worst dc emails hall]

/-- Witness instantiating `emailSelection_preference_order` on the concrete
scenario address list. -/
theorem emailSelection_preference_order_witness :
    ("info@acme.com".toList ∈
        ["info@acme.com".toList, "someone@tracking-pixel.com".toList,
          "support@othersite.com".toList] ∧
      ∀ x ∈ ["info@acme.com".toList, "someone@tracking-pixel.com".toList,
          "support@othersite.com".toList],
        emailKey "acme.com".toList "info@acme.com".toList ≤ emailKey "acme.com".toList x) ∧
    emailKey "acme.com".toList "info@acme.com".toList <
      emailKey "acme.com".toList "support@othersite.com".toList ∧
    emailKey "acme.com".toList "hello@othersite.com".toList <
      emailKey "acme.com".toList "support@othersite.com".toList ∧
    (jsSortBy (emailCmp "acme.com".toList)
        ["someone@tracking-pixel.com".toList, "support@othersite.com".toList]).head? =
      (["someone@tracking-pixel.com".toList, "support@othersite.com".toList] :
        List (List Char)).head? :=
  ⟨emailSelection_preference_order.1 "acme.com".toList _ _ (by decide),
   emailSelection_preference_order.2.1 "acme.com".toList _ _ (by decide) (by decide),
   emailSelection_preference_order.2.2.1 "acme.com".toList _ _ (by decide) (by decide),
   emailSelection_preference_order.2.2.2.1 "acme.com".toList _ (by decide)⟩

/-! The multi-source orchestration of the search handler `POST`: the six
guarded `trySource` calls.  An adapter outcome is `Except`: `.error` models
a thrown exception.  In single-source mode the rethrow aborts the handler
(the response is the 500 error); in `all` mode the message is pushed onto
`errors` and iteration continues. -/

/-- The six source names, in the order of the guarded `trySource` calls. -/
def sourceNames : List (List Char) :=
  ["google_maps", "yelp", "fresha", "yell", "yellow_pages", "bark"].map String.toList

/-- The guarded `trySource` sequence over a list of names: running state is
`(results, errors, sourceStats)`. -/
def runSourcesGo (source : List Char)
    (adapters : List Char → Except (List Char) (List LeadResult)) :
    List (List Char) → List LeadResult × List (List Char) × List (List Char × Nat) →
    Except (List Char) (List LeadResult × List (List Char) × List (List Char × Nat))
  | [], st => .ok st
  | name :: rest, st =>
      if source = name ∨ source = "all".toList then
        match adapters name with
        | .ok r =>
            if 0 < r.length then
              runSourcesGo source adapters rest (st.1 ++ r, st.2.1, st.2.2 ++ [(name, r.length)])
            else
              runSourcesGo source adapters rest (st.1, st.2.1, st.2.2 ++ [(name, 0)])
        | .error msg =>
            if source ≠ "all".toList then .error msg
            else runSourcesGo source adapters rest (st.1, st.2.1 ++ [msg], st.2.2 ++ [(name, 0)])
      else runSourcesGo source adapters rest st

/-- The whole source-collection phase of the search handler. -/
def runSources (source : List Char)
    (adapters : List Char → Except (List Char) (List LeadResult)) :
    Except (List Char) (List LeadResult × List (List Char) × List (List Char × Nat)) :=
  runSourcesGo source adapters sourceNames ([], [], [])

/-- Claim-side: concatenation of the successful adapters' results, in
program order. -/
def okResults (adapters : List Char → Except (List Char) (List LeadResult))
    (names : List (List Char)) : List LeadResult :=
  (names.map (fun n => match adapters n with | .ok r => r | .error _ => [])).flatten

/-- Claim-side: the failed adapters' messages, in program order. -/
def errMsgs (adapters : List Char → Except (List Char) (List LeadResult))
    (names : List (List Char)) : List (List Char) :=
  names.filterMap (fun n => match adapters n with | .ok _ => none | .error m => some m)

/-- Claim-side: the per-source result counts, one entry per attempted
source, zero for a failed one. -/
def statsOf (adapters : List Char → Except (List Char) (List LeadResult))
    (names : List (List Char)) : List (List Char × Nat) :=
  names.map (fun n => (n, match adapters n with | .ok r => r.length | .error _ => 0))

theorem runSourcesGo_single_error :
    ∀ (names : List (List Char)) (source : List Char)
      (adapters : List Char → Except (List Char) (List LeadResult))
      (msg : List Char) (st : List LeadResult × List (List Char) × List (List Char × Nat)),
      source ∈ names → source ≠ "all".toList → adapters source = .error msg →
      runSourcesGo source adapters names st = .error msg := by
  intro names
  induction names with
  | nil => intro source adapters msg st hmem _ _; simp at hmem
  | cons n rest ih =>
    intro source adapters msg st hmem hall herr
    simp only [runSourcesGo]
    by_cases heq : source = n
    · subst heq
      rw [if_pos (Or.inl rfl), herr]
      dsimp only
      rw [if_pos hall]
    · rw [if_neg (by rintro (h | h); exact heq h; exact hall h)]
      refine ih source adapters msg st ?_ hall herr
      rcases List.mem_cons.mp hmem with h | h
      · exact absurd h heq
      · exact h

theorem runSourcesGo_all (adapters : List Char → Except (List Char) (List LeadResult)) :
    ∀ (names : List (List Char))
      (st : List LeadResult × List (List Char) × List (List Char × Nat)),
      runSourcesGo "all".toList adapters names st =
        .ok (st.1 ++ okResults adapters names, st.2.1 ++ errMsgs adapters names,
          st.2.2 ++ statsOf adapters names) := by
  intro names
  induction names with
  | nil => intro st; simp [runSourcesGo, okResults, errMsgs, statsOf]
  | cons n rest ih =>
    intro st
    simp only [runSourcesGo]
    rw [if_pos (Or.inr trivial)]
    cases hn : adapters n with
    | ok r =>
        dsimp only
        by_cases hr : 0 < r.length
        · rw [if_pos hr, ih]
          simp [okResults, errMsgs, statsOf, hn, List.append_assoc]
        · rw [if_neg hr]
          have hrnil : r = [] := by
            cases r with
            | nil => rfl
            | cons a t => exact absurd (by simp) hr
          rw [ih]
          simp [okResults, errMsgs, statsOf, hn, hrnil, List.append_assoc]
    | error m =>
        dsimp only
        rw [if_neg (by simp), ih]
        simp [okResults, errMsgs, statsOf, hn, List.append_assoc]

/-- Five distinct Yelp results for the all-sources scenario. -/
def cxFiveLeads : List LeadResult :=
  [{ business_name := "Alpha Spa".toList }, { business_name := "Beta Spa".toList },
   { business_name := "Gamma Spa".toList }, { business_name := "Delta Spa".toList },
   { business_name := "Epsilon Spa".toList }]

/-- Adapter oracle of the scenario: `google_maps` throws, `yelp` returns
five results, the remaining adapters return empty successes. -/
def cxAdapters (name : List Char) : Except (List Char) (List LeadResult) :=
  if name = "google_maps".toList then .error "google maps down".toList
  else if name = "yelp".toList then .ok cxFiveLeads
  else .ok []

/-- C8: in single-source mode an adapter failure is fatal — the handler
rethrows and no result set is produced; in all-sources mode every adapter
failure is appended to `errors`, contributes zero results, and the
remaining adapters still run; in particular with `google_maps` failing and
`yelp` returning five results, the response carries exactly those five
results plus one warning and no exception escapes. -/
theorem orchestrator_error_modes :
    (∀ (source : List Char)
      (adapters : List Char → Except (List Char) (List LeadResult)) (msg : List Char),
      source ∈ sourceNames → adapters source = .error msg →
      runSources source adapters = .error msg) ∧
    (∀ adapters : List Char → Except (List Char) (List LeadResult),
      runSources "all".toList adapters =
        .ok (okResults adapters sourceNames, errMsgs adapters sourceNames,
          statsOf adapters sourceNames)) ∧
    (runSources "all".toList cxAdapters =
      .ok (cxFiveLeads, ["google maps down".toList], statsOf cxAdapters sourceNames)) ∧
    cxFiveLeads.length = 5 := by
  refine ⟨?_, ?_, rfl, rfl⟩
  · intro source adapters msg hmem herr
    have hall : source ≠ "all".toList := by
      have hmem2 := hmem
      simp only [sourceNames, List.map_cons, List.map_nil, List.mem_cons,
        List.not_mem_nil, or_false] at hmem2
      rcases hmem2 with rfl | rfl | rfl | rfl | rfl | rfl <;> decide
    exact runSourcesGo_single_error sourceNames source adapters msg _ hmem hall herr
  · intro adapters
    unfold runSources
    rw [runSourcesGo_all]
    rfl

/-- Witness instantiating `orchestrator_error_modes` at a concrete failing
single source and at the scenario adapters. -/
theorem orchestrator_error_modes_witness :
    runSources "yelp".toList (fun _ => Except.error "kaput".toList) =
      Except.error "kaput".toList ∧
    runSources "all".toList cxAdapters =
      .ok (okResults cxAdapters sourceNames, errMsgs cxAdapters sourceNames,
        statsOf cxAdapters sourceNames) :=
  ⟨orchestrator_error_modes.1 "yelp".toList (fun _ => Except.error "kaput".toList)
      "kaput".toList (by decide) rfl,
   orchestrator_error_modes.2.1 cxAdapters⟩

/-- Claim-side predicate: a lead needs enrichment (truthy website and a
falsy email or Instagram). -/
def needsEnrichmentP (l : LeadResult) : Bool :=
  truthyL l.website && (!truthyL l.email || !truthyL l.instagram_url)

theorem chunkMap_eq_map {α β : Type} (f : α → β) (n : Nat) :
    ∀ l : List α, chunkMap f n l = l.map f := by
  have h : ∀ (m : Nat) (l : List α), l.length ≤ m → chunkMap f n l = l.map f := by
    intro m
    induction m with
    | zero =>
        intro l hl
        have hnil : l = [] := List.length_eq_zero.mp (Nat.le_zero.mp hl)
        subst hnil; simp [chunkMap]
    | succ m ih =>
        intro l hl
        cases l with
        | nil => simp [chunkMap]
        | cons x xs =>
            simp only [chunkMap]
            rw [ih (xs.drop (n - 1))
              (by simp only [List.length_drop]; simp only [List.length_cons] at hl; omega)]
            simp only [List.map_cons, List.cons_append]
            rw [← List.map_append, List.take_append_drop]
  exact fun l => h l.length l le_rfl

theorem complete_filter_eq (leads : List LeadResult) :
    leads.filter (fun l => !truthyL l.website || (truthyL l.email && truthyL l.instagram_url)) =
      leads.filter (fun l => !(needsEnrichmentP l)) := by
  apply List.filter_congr
  intro l _
  unfold needsEnrichmentP
  cases truthyL l.website <;> cases truthyL l.email <;> cases truthyL l.instagram_url <;> rfl

theorem filter_not_length {α : Type} (p : α → Bool) (l : List α) :
    (l.filter p).length + (l.filter (fun a => !(p a))).length = l.length := by
  induction l with
  | nil => rfl
  | cons x t ih =>
      by_cases h : p x = true
      · simp [List.filter_cons, h, ← ih]; omega
      · have h' : p x = false := by simp at h; exact h
        simp [List.filter_cons, h', ← ih]; omega

theorem enrichLeadsBatch_structure (hasKey : Bool) (crawl : LeadResult → CrawlData)
    (leads : List LeadResult) (n : Nat) :
    enrichLeadsBatch hasKey crawl leads n =
      (if (leads.filter needsEnrichmentP).isEmpty then leads
       else leads.filter (fun l => !(needsEnrichmentP l)) ++
         (leads.filter needsEnrichmentP).map (fun l => enrichFromWebsite hasKey (crawl l) l)) := by
  unfold enrichLeadsBatch
  dsimp only
  rw [complete_filter_eq, chunkMap_eq_map]
  have hfun : (fun l : LeadResult =>
      truthyL l.website && (!truthyL l.email || !truthyL l.instagram_url)) =
      needsEnrichmentP := rfl
  rw [hfun]

theorem enrichLeadsBatch_length (hasKey : Bool) (crawl : LeadResult → CrawlData)
    (leads : List LeadResult) (n : Nat) :
    (enrichLeadsBatch hasKey crawl leads n).length = leads.length := by
  rw [enrichLeadsBatch_structure]
  split_ifs with h
  · rfl
  · have hsum := filter_not_length needsEnrichmentP leads
    simp only [List.length_append, List.length_map]
    omega

theorem autoEnrich_length (hasKey failed : Bool) (crawl : LeadResult → CrawlData)
    (unique : List LeadResult) :
    (autoEnrich hasKey failed crawl unique).length = unique.length := by
  unfold autoEnrich
  split_ifs with h1 h2
  · rfl
  · simp only [List.length_append, enrichLeadsBatch_length, List.length_take,
      List.length_drop]
    omega
  · rfl

/-- C10: the search handler's auto-enrichment respects its bounds.  Without
a Firecrawl key, or when the enrichment promise rejects, the de-duplicated
results are returned unchanged.  Otherwise exactly the first 15 results are
passed to `enrichLeadsBatch` with batch size 3 and everything beyond the
first 15 is appended un-enriched; batching in chunks is equivalent to
enriching each qualifying lead independently, leads without a truthy
website or with email and Instagram both truthy pass through untouched,
and the total count is preserved. -/
theorem autoEnrich_first15_batches :
    (∀ (failed : Bool) (crawl : LeadResult → CrawlData) (unique : List LeadResult),
      autoEnrich false failed crawl unique = unique) ∧
    (∀ (hasKey : Bool) (crawl : LeadResult → CrawlData) (unique : List LeadResult),
      autoEnrich hasKey true crawl unique = unique) ∧
    (∀ (crawl : LeadResult → CrawlData) (unique : List LeadResult),
      autoEnrich true false crawl unique =
        enrichLeadsBatch true crawl (unique.take 15) 3 ++ unique.drop 15) ∧
    (∀ (hasKey failed : Bool) (crawl : LeadResult → CrawlData) (unique : List LeadResult),
      (autoEnrich hasKey failed crawl unique).drop (min 15 unique.length) =
        unique.drop 15) ∧
    (∀ (hasKey : Bool) (crawl : LeadResult → CrawlData) (leads : List LeadResult) (n : Nat),
      enrichLeadsBatch hasKey crawl leads n =
        (if (leads.filter needsEnrichmentP).isEmpty then leads
         else leads.filter (fun l => !(needsEnrichmentP l)) ++
           (leads.filter needsEnrichmentP).map
             (fun l => enrichFromWebsite hasKey (crawl l) l))) ∧
    (∀ (hasKey failed : Bool) (crawl : LeadResult → CrawlData) (unique : List LeadResult),
      (autoEnrich hasKey failed crawl unique).length = unique.length) := by
  have hdropmin : ∀ unique : List LeadResult,
      unique.drop (min 15 unique.length) = unique.drop 15 := by
    intro unique
    rcases Nat.le_total unique.length 15 with h | h
    · rw [Nat.min_eq_right h, List.drop_length, List.drop_eq_nil_of_le h]
    · rw [Nat.min_eq_left h]
  refine ⟨fun _ _ _ => rfl, ?_, fun _ _ => rfl, ?_, enrichLeadsBatch_structure, autoEnrich_length⟩
  · intro hasKey crawl unique
    unfold autoEnrich
    cases hasKey <;> rfl
  · intro hasKey failed crawl unique
    unfold autoEnrich
    split_ifs with h1 h2
    · exact hdropmin unique
    · subst h1
      have hlen : (enrichLeadsBatch true crawl (unique.take 15) 3).length =
          min 15 unique.length := by
        rw [enrichLeadsBatch_length, List.length_take]
      rw [← hlen, List.drop_left]
    · exact hdropmin unique

end Prospex


